import Mathlib

/-!
# Verification of the lighthouse_checker audit-orchestration core

Shallow embedding of the audit API route (session store, pipeline,
sweeper) and of `LighthouseService` (per-URL audit, score conversion,
opportunity sort, AI insights), together with proofs and refutations of
the specification's claims.

Conventions:
* JavaScript numbers that the code only ever uses as exact values are
  modelled as `ℚ` (engine score fractions, opportunity impacts) or as
  `Nat`/`Int` (timestamps, counters).
* Fallible external calls are modelled by explicit outcome data fed to
  the embedded control flow.
* The observable states of a session are the store contents at the
  `await` suspension points of the pipeline task: Node's event loop only
  lets the status-poll handler run at those points, so consecutive
  synchronous store writes collapse into the last one.
-/

namespace LighthouseChecker

/-! ## Data model (src types and the session record of the audit route) -/

/-- `status` field of a session record: `'processing' | 'completed' | 'error'`. -/
inductive SessionStatus where
  | processing
  | completed
  | error
deriving DecidableEq, Repr

/-- Integer category scores as computed by `auditUrl`; `pwa` is `'N/A'`
(here `none`) when the engine reports no pwa category score. -/
structure Scores where
  performance : ℤ
  accessibility : ℤ
  bestPractices : ℤ
  seo : ℤ
  pwa : Option ℤ
deriving DecidableEq, Repr

/-- One entry of the `opportunities` list of a success result. -/
structure Opportunity where
  title : String
  displayValue : Option String
  numericValue : Option ℚ
deriving DecidableEq, Repr

/-- `AuditResult`: success variant `{url, scores, opportunities, reportPaths}`
or failure variant `{url, error}` (never both populated). -/
inductive AuditResult where
  | success (url : String) (scores : Scores) (opportunities : List Opportunity)
      (jsonPath htmlPath : String)
  | failure (url : String) (errorMsg : String)
deriving DecidableEq, Repr

/-- The `url` field, present in both variants. -/
def AuditResult.url : AuditResult → String
  | .success u _ _ _ _ => u
  | .failure u _ => u

/-- Whether a result is the failure variant. -/
def AuditResult.isFailure : AuditResult → Bool
  | .success _ _ _ _ _ => false
  | .failure _ _ => true

/-- The session record stored in the `auditSessions` map. -/
structure Session where
  status : SessionStatus
  results : List AuditResult
  currentUrl : Option String
  progress : ℕ
  total : ℕ
  errorMsg : Option String
  insightsFile : Option String
deriving DecidableEq, Repr

/-- `formFactor ∈ {desktop, mobile}`. -/
inductive FormFactor where
  | desktop
  | mobile
deriving DecidableEq, Repr

/-- The `config` object of an audit request.  `formFactor` is `Option`
because the route checks `!config.formFactor` at runtime. -/
structure LighthouseConfig where
  apiKey : Option String
  bypassToken : Option String
  formFactor : Option FormFactor
deriving DecidableEq, Repr

/-! ## Score conversion (`auditUrl`, "Calculate scores" block)

The code computes `Math.round((lhr.categories.<cat>?.score || 0) * 100)`.
`Math.round` rounds to the nearest integer with ties toward `+∞`, which
on exact values is `⌊x + 1/2⌋`. -/

/-- Embedding of JavaScript `Math.round` on exact values. -/
def jsMathRound (q : ℚ) : ℤ := ⌊q + 1 / 2⌋

/-- `Math.round((category?.score || 0) * 100)`: an absent score falls back
to `0` before scaling. -/
def calcCategoryScore (s : Option ℚ) : ℤ := jsMathRound (s.getD 0 * 100)

/-- The pwa score: `score !== undefined && score !== null ?
Math.round(score * 100) : 'N/A'`. -/
def calcPwaScore (s : Option ℚ) : Option ℤ := s.map (fun x => jsMathRound (x * 100))

/-- Category score fractions of an engine result (`lhr.categories`); every
field may be absent. -/
structure CategoryFractions where
  performance : Option ℚ
  accessibility : Option ℚ
  bestPractices : Option ℚ
  seo : Option ℚ
  pwa : Option ℚ
deriving DecidableEq, Repr

/-- The whole `scores` object built by `auditUrl`. -/
def computeScores (c : CategoryFractions) : Scores where
  performance := calcCategoryScore c.performance
  accessibility := calcCategoryScore c.accessibility
  bestPractices := calcCategoryScore c.bestPractices
  seo := calcCategoryScore c.seo
  pwa := calcPwaScore c.pwa

/-- Modelled from the spec: "round-half-up" — the nearest integer, with a
fractional part of exactly one half rounded up.  Stated independently of
the code's `Math.round` so the two can be compared. -/
def roundHalfUpSpec (q : ℚ) : ℤ := if 1 / 2 ≤ q - ⌊q⌋ then ⌊q⌋ + 1 else ⌊q⌋

theorem jsMathRound_eq_roundHalfUpSpec (q : ℚ) : jsMathRound q = roundHalfUpSpec q := by
  unfold jsMathRound roundHalfUpSpec
  rcases le_or_lt (1 / 2 : ℚ) (q - ⌊q⌋) with h | h
  · rw [if_pos h]
    apply Int.floor_eq_iff.mpr
    constructor
    · push_cast
      linarith
    · push_cast
      linarith [Int.lt_floor_add_one q]
  · rw [if_neg (not_le.mpr h)]
    apply Int.floor_eq_iff.mpr
    constructor
    · linarith [Int.floor_le q]
    · linarith

/-! ## Opportunity extraction (`auditUrl`, "Extract opportunities" block)

The code filters `lhr.audits` for `details.type === 'opportunity'`, sorts
with the comparator `(b.numericValue || 0) - (a.numericValue || 0)` —
`Array.prototype.sort` is stable — and maps to
`{title, displayValue, numericValue}`.  The stable descending sort by the
comparator key is embedded as a stable insertion sort: an element passes
over strictly greater keys only, so it stays in front of every
later-arriving element of equal key. -/

/-- One entry of `lhr.audits` as far as the extraction looks at it. -/
structure LhAudit where
  title : String
  displayValue : Option String
  numericValue : Option ℚ
  /-- `audit.details && audit.details.type === 'opportunity'` -/
  isOpportunity : Bool
deriving DecidableEq, Repr

/-- The comparator key: `x.numericValue || 0`. -/
def impactKey (a : LhAudit) : ℚ := a.numericValue.getD 0

/-- Stable descending insertion: `x` passes over the elements of
strictly greater key and lands before the first element whose key is
less than or equal to its own — so an element keeps its place before
later-arriving elements of equal key. -/
def insertImpactDesc (x : LhAudit) : List LhAudit → List LhAudit
  | [] => [x]
  | y :: ys => if impactKey x < impactKey y then y :: insertImpactDesc x ys else x :: y :: ys

/-- Stable sort by descending `impactKey` (the unique stable order
produced by the code's comparator, which `Array.prototype.sort`
guarantees). -/
def sortImpactDesc : List LhAudit → List LhAudit
  | [] => []
  | x :: xs => insertImpactDesc x (sortImpactDesc xs)

/-- The full extraction: filter, stable descending sort, project. -/
def extractOpportunities (audits : List LhAudit) : List Opportunity :=
  (sortImpactDesc (audits.filter (fun a => a.isOpportunity))).map
    (fun a => ⟨a.title, a.displayValue, a.numericValue⟩)

theorem insertImpactDesc_perm (x : LhAudit) (l : List LhAudit) :
    (insertImpactDesc x l).Perm (x :: l) := by
  induction l with
  | nil => simp [insertImpactDesc]
  | cons y ys ih =>
    unfold insertImpactDesc
    by_cases h : impactKey x < impactKey y
    · rw [if_pos h]
      exact (ih.cons y).trans (List.Perm.swap x y ys)
    · rw [if_neg h]

theorem sortImpactDesc_perm (l : List LhAudit) : (sortImpactDesc l).Perm l := by
  induction l with
  | nil => simp [sortImpactDesc]
  | cons x xs ih =>
    exact (insertImpactDesc_perm x (sortImpactDesc xs)).trans (ih.cons x)

theorem insertImpactDesc_sorted (x : LhAudit) (l : List LhAudit)
    (h : l.Pairwise (fun a b => impactKey b ≤ impactKey a)) :
    (insertImpactDesc x l).Pairwise (fun a b => impactKey b ≤ impactKey a) := by
  induction l with
  | nil => simp [insertImpactDesc]
  | cons y ys ih =>
    rcases List.pairwise_cons.mp h with ⟨hy, hys⟩
    unfold insertImpactDesc
    by_cases hk : impactKey x < impactKey y
    · rw [if_pos hk]
      refine List.pairwise_cons.mpr ⟨?_, ih hys⟩
      intro b hb
      rcases List.mem_cons.mp ((insertImpactDesc_perm x ys).mem_iff.mp hb) with rfl | hb
      · exact le_of_lt hk
      · exact hy b hb
    · rw [if_neg hk]
      refine List.pairwise_cons.mpr ⟨?_, h⟩
      intro b hb
      rcases List.mem_cons.mp hb with rfl | hb
      · exact not_lt.mp hk
      · exact le_trans (hy b hb) (not_lt.mp hk)

/-- Within one comparator-key class, insertion keeps the inserted element
first: the elements it passes over all have strictly greater key. -/
theorem insertImpactDesc_filter_key (x : LhAudit) (l : List LhAudit) (q : ℚ) :
    (insertImpactDesc x l).filter (fun a => impactKey a = q) =
      if impactKey x = q then x :: l.filter (fun a => impactKey a = q)
      else l.filter (fun a => impactKey a = q) := by
  induction l with
  | nil =>
    by_cases hx : impactKey x = q <;> simp [insertImpactDesc, hx]
  | cons y ys ih =>
    unfold insertImpactDesc
    by_cases hk : impactKey x < impactKey y
    · rw [if_pos hk]
      by_cases hx : impactKey x = q
      · have hyq : ¬ impactKey y = q := by
          intro hyq
          rw [hx, hyq] at hk
          exact lt_irrefl q hk
        simp [List.filter_cons, hx, hyq, ih]
      · by_cases hyq : impactKey y = q <;> simp [List.filter_cons, hx, hyq, ih]
    · rw [if_neg hk]
      by_cases hx : impactKey x = q <;>
        by_cases hyq : impactKey y = q <;> simp [List.filter_cons, hx, hyq]

/-- Stability of the whole sort: filtering to any single comparator-key
value yields the same subsequence before and after sorting. -/
theorem sortImpactDesc_filter_key (l : List LhAudit) (q : ℚ) :
    (sortImpactDesc l).filter (fun a => impactKey a = q) =
      l.filter (fun a => impactKey a = q) := by
  induction l with
  | nil => rfl
  | cons x xs ih =>
    rw [sortImpactDesc, insertImpactDesc_filter_key]
    by_cases hx : impactKey x = q <;> simp [List.filter_cons, hx, ih]

theorem sortImpactDesc_sorted (l : List LhAudit) :
    (sortImpactDesc l).Pairwise (fun a b => impactKey b ≤ impactKey a) := by
  induction l with
  | nil => simp [sortImpactDesc]
  | cons x xs ih => exact insertImpactDesc_sorted x (sortImpactDesc xs) ih

/-! ## Per-URL audit invocation: resource lifecycle (`auditUrl`)

`auditUrl` wraps its body in `try/catch/finally`.  The body can throw at
`chromeLauncher.launch`, `puppeteer.connect`, page setup, `lighthouse`,
or the report writes; every body exception is caught and converted into
a returned failure result.  The `finally` block runs
`if (browser) await browser.disconnect(); if (chrome) await chrome.kill()`
sequentially: if `disconnect` rejects, `kill` is skipped and the
rejection replaces the function's completion (JavaScript `finally`
semantics); likewise a `kill` rejection replaces the completion. -/

/-- The engine result consumed by `auditUrl` on the success path. -/
structure EngineResult where
  categories : CategoryFractions
  audits : List LhAudit
deriving DecidableEq, Repr

/-- Outcomes of the external calls made during one `auditUrl` invocation.
`bodyResult = none` models any body step throwing after a successful
connect (page setup, the lighthouse call, report writes); the message is
the classified error text. -/
structure BrowserEnv where
  launchOk : Bool
  connectOk : Bool
  bodyResult : Option EngineResult
  bodyErrorMsg : String
  launchErrorMsg : String
  connectErrorMsg : String
  disconnectOk : Bool
  killOk : Bool
deriving DecidableEq, Repr

/-- What one `auditUrl` invocation did: how its promise settled (`.ok r`
= resolved with result `r`, `.error m` = rejected), and the final fate of
the browser resources. -/
structure AuditExec where
  outcome : Except String AuditResult
  chromeLaunched : Bool
  chromeKilled : Bool
  browserConnected : Bool
  browserDisconnected : Bool
deriving Repr

/-- The success-variant result built from an engine result. -/
def buildSuccessResult (url : String) (er : EngineResult) (jsonPath htmlPath : String) :
    AuditResult :=
  .success url (computeScores er.categories) (extractOpportunities er.audits) jsonPath htmlPath

/-- Embedding of `auditUrl`'s control flow over the call outcomes in
`env`.  Mirrors the `try { launch; connect; ...; return success } catch
{ return failure } finally { if (browser) disconnect; if (chrome) kill }`
structure, including the leak path where `disconnect` rejects. -/
def auditUrlExec (env : BrowserEnv) (url jsonPath htmlPath : String) : AuditExec :=
  if ¬env.launchOk then
    -- launch threw: chrome and browser are both still null, the catch
    -- returns a failure result and the finally has nothing to release
    { outcome := .ok (.failure url env.launchErrorMsg)
      chromeLaunched := false, chromeKilled := false
      browserConnected := false, browserDisconnected := false }
  else if ¬env.connectOk then
    -- chrome launched, connect threw: catch returns a failure result,
    -- finally skips disconnect (browser null) and kills chrome
    if env.killOk then
      { outcome := .ok (.failure url env.connectErrorMsg)
        chromeLaunched := true, chromeKilled := true
        browserConnected := false, browserDisconnected := false }
    else
      { outcome := .error "kill failed"
        chromeLaunched := true, chromeKilled := false
        browserConnected := false, browserDisconnected := false }
  else
    -- chrome launched and browser connected; the body either returns the
    -- success result or its exception is caught into a failure result
    let r :=
      match env.bodyResult with
      | some er => buildSuccessResult url er jsonPath htmlPath
      | none => .failure url env.bodyErrorMsg
    if ¬env.disconnectOk then
      -- disconnect rejected inside finally: kill is skipped, the
      -- rejection replaces the return and chrome stays alive
      { outcome := .error "disconnect failed"
        chromeLaunched := true, chromeKilled := false
        browserConnected := true, browserDisconnected := false }
    else if ¬env.killOk then
      { outcome := .error "kill failed"
        chromeLaunched := true, chromeKilled := false
        browserConnected := true, browserDisconnected := true }
    else
      { outcome := .ok r
        chromeLaunched := true, chromeKilled := true
        browserConnected := true, browserDisconnected := true }

/-! ## Session ids and the sweeper

`generateSessionId` returns `Date.now().toString(36) +
Math.random().toString(36).substr(2)`: the base-36 digits of the
creation time followed by the base-36 digits of a random fraction.  The
hourly cleanup task computes `cutoff = Date.now() - 24*60*60*1000` and
deletes a session iff `parseInt(sessionId, 36) < cutoff` — `parseInt`
consumes *all* base-36 digits of the id, suffix included.  Ids are
modelled as their digit lists. -/

/-- `parseInt(digits, 36)` over the digit values of the id. -/
def parseIntBase36 (ds : List ℕ) : ℕ := ds.foldl (fun a d => 36 * a + d) 0

/-- The digit list of `generateSessionId()` for a creation time
`timestampMs` and a random suffix `randDigits` (each entry `< 36`):
big-endian base-36 digits of the timestamp followed by the suffix. -/
def sessionIdDigits (timestampMs : ℕ) (randDigits : List ℕ) : List ℕ :=
  (Nat.digits 36 timestampMs).reverse ++ randDigits

/-- Retention window: 24 hours in milliseconds. -/
def retentionMs : ℕ := 24 * 60 * 60 * 1000

/-- One sweep decision at wall-clock time `nowMs`: the session is deleted
iff `parseInt(id, 36) < nowMs - retentionMs` (over `ℤ`, as in JS). -/
def sweepDeletes (idDigits : List ℕ) (nowMs : ℕ) : Bool :=
  (parseIntBase36 idDigits : ℤ) < (nowMs : ℤ) - (retentionMs : ℤ)

theorem parseIntBase36_append (a b : List ℕ) :
    parseIntBase36 (a ++ b) = parseIntBase36 a * 36 ^ b.length + parseIntBase36 b := by
  induction b using List.reverseRecOn with
  | nil => simp [parseIntBase36]
  | append_singleton b d ih =>
    have h1 : a ++ (b ++ [d]) = (a ++ b) ++ [d] := by simp
    have hfold : ∀ l : List ℕ, parseIntBase36 (l ++ [d]) = 36 * parseIntBase36 l + d := by
      intro l
      simp [parseIntBase36, List.foldl_append]
    rw [h1, hfold, hfold, ih]
    simp [pow_succ]
    ring

theorem parseIntBase36_digits (n : ℕ) :
    parseIntBase36 ((Nat.digits 36 n).reverse) = n := by
  have h : ∀ l : List ℕ, parseIntBase36 l.reverse = Nat.ofDigits 36 l := by
    intro l
    induction l using List.reverseRecOn with
    | nil => simp [parseIntBase36, Nat.ofDigits]
    | append_singleton l d ih =>
      rw [List.reverse_append]
      simp only [List.reverse_singleton, List.singleton_append]
      rw [Nat.ofDigits_append]
      simp only [Nat.ofDigits_singleton]
      have : parseIntBase36 (d :: l.reverse) =
          (l.reverse).foldl (fun a x => 36 * a + x) d := by
        simp [parseIntBase36]
      rw [this]
      have hgen : ∀ (m : List ℕ) (c : ℕ),
          m.foldl (fun a x => 36 * a + x) c = c * 36 ^ m.length + parseIntBase36 m := by
        intro m
        induction m using List.reverseRecOn with
        | nil => intro c; simp [parseIntBase36]
        | append_singleton m d2 ih2 =>
          intro c
          rw [List.foldl_append]
          simp only [List.foldl_cons, List.foldl_nil]
          rw [ih2]
          have : parseIntBase36 (m ++ [d2]) = 36 * parseIntBase36 m + d2 := by
            simp [parseIntBase36, List.foldl_append]
          rw [this]
          simp [pow_succ]
          ring
      rw [hgen, ih]
      have : (l.reverse).length = l.length := l.length_reverse
      rw [this]
      ring
  rw [h, Nat.ofDigits_digits]

/-- The parsed value of a full session id: the creation time shifted left
by the whole random suffix, plus the suffix value. -/
theorem parseIntBase36_sessionId (t : ℕ) (rand : List ℕ) :
    parseIntBase36 (sessionIdDigits t rand) =
      t * 36 ^ rand.length + parseIntBase36 rand := by
  rw [sessionIdDigits, parseIntBase36_append, parseIntBase36_digits]

/-! ## The pipeline task (`processAuditAsync`) as a trace of pollable states

`handleAuditRequest` stores the fresh session and immediately invokes
`processAuditAsync` without awaiting it; the task runs synchronously up
to its first `await`.  A status poll can only run while the task is
suspended, so the pollable states are:

* for each URL index `i`: the store contents during that URL's awaits —
  `currentUrl = urls[i]`, `progress = i`, and the results written by the
  most recent completed URL whose `auditUrl` promise *resolved* (the
  write `progressSession.results = [...results]` runs in the same
  synchronous block as the resolution, and is skipped when the promise
  rejected and the `catch (error)` branch ran);
* if an api key was supplied (and there is at least one result), the
  store contents during the awaits of the insights block — the loop's
  last state, with `progress` still `urls.length - 1`;
* the terminal state written by the final update (or by the task-level
  catch), after which the task performs no further writes. -/

/-- How one `await lighthouseService.auditUrl(...)` settles, as seen by
the loop in `processAuditAsync`. -/
inductive StepOutcome where
  /-- `auditUrl` resolved with a success-variant result. -/
  | success (scores : Scores) (opportunities : List Opportunity) (jsonPath htmlPath : String)
  /-- `auditUrl` caught an audit error internally and resolved with a
  failure-variant result (the normal per-URL failure path). -/
  | returnedFailure (msg : String)
  /-- `auditUrl`'s promise rejected — only possible when its `finally`
  block itself threw; handled by the loop's `catch (error)` branch. -/
  | threw (msg : String)
deriving DecidableEq, Repr

/-- Whether the `auditUrl` promise resolved (so the loop's success branch,
including the store write of partial results, ran). -/
def StepOutcome.isReturned : StepOutcome → Bool
  | .threw _ => false
  | _ => true

/-- Whether the loop appends a failure-variant result for this outcome. -/
def StepOutcome.producesFailure : StepOutcome → Bool
  | .success _ _ _ _ => false
  | _ => true

/-- The result the loop appends to its local `results` accumulator. -/
def stepResult (url : String) : StepOutcome → AuditResult
  | .success sc op j h => .success url sc op j h
  | .returnedFailure m => .failure url m
  | .threw m => .failure url m

/-- The session record created by `handleAuditRequest`. -/
def initialSession (total : ℕ) : Session where
  status := .processing
  results := []
  currentUrl := none
  progress := 0
  total := total
  errorMsg := none
  insightsFile := none

/-- The progress write at the top of a loop iteration:
`currentSession.currentUrl = url; currentSession.progress = i`. -/
def progressStore (store : Session) (url : String) (i : ℕ) : Session :=
  { store with currentUrl := some url, progress := i }

/-- The store contents when the iteration's synchronous tail has run: the
partial-results write `progressSession.results = [...results]` happens
iff the `auditUrl` promise resolved; when it rejected, the `catch`
branch leaves the store untouched. -/
def afterStepStore (store : Session) (url : String) (i : ℕ) (acc' : List AuditResult)
    (o : StepOutcome) : Session :=
  if o.isReturned then { progressStore store url i with results := acc' }
  else progressStore store url i

/-- The per-URL loop of `processAuditAsync`.  Arguments: next index,
current store contents, local `results` accumulator, remaining
`(url, outcome)` pairs.  Returns the pollable snapshots it produces (one
per URL: the state during that URL's awaits), the store contents when
the loop ends, and the final accumulator. -/
def runLoop : ℕ → Session → List AuditResult → List (String × StepOutcome) →
    List Session × Session × List AuditResult
  | _, store, acc, [] => ([], store, acc)
  | i, store, acc, (url, o) :: rest =>
    let acc' := acc ++ [stepResult url o]
    let next := runLoop (i + 1) (afterStepStore store url i acc' o) acc' rest
    (progressStore store url i :: next.1, next.2)

/-- Outcome of the single OpenAI chat call inside `generateAIInsights`:
rejected, or resolved with `choices[0].message.content` (possibly null). -/
inductive AiCallOutcome where
  | failed (msg : String)
  | ok (content : Option String)
deriving DecidableEq, Repr

/-- `LighthouseService.generateAIInsights`: a total function — a rejected
chat call is caught and turned into a placeholder string, never
rethrown, and a missing client short-circuits to another placeholder. -/
def generateAIInsights (hasOpenai : Bool) (call : AiCallOutcome) : String :=
  if hasOpenai = false then "AI insights not available (no API key provided)"
  else
    match call with
    | .failed _ => "Error generating AI insights"
    | .ok none => "No insights generated"
    | .ok (some c) => if c.trim = "" then "No insights generated" else c.trim

/-- External outcomes of the insights block of `processAuditAsync`. -/
structure InsightsEnv where
  /-- outcome of the OpenAI chat call -/
  call : AiCallOutcome
  /-- whether the `fs/promises` import and `writeFile` succeed -/
  writeOk : Bool
  /-- `new Date().toISOString().replace(/[:.]/g, '-')` at that moment -/
  timestamp : String
deriving DecidableEq, Repr

/-- `lighthouse-ai-insights-${config.formFactor}-${timestamp}.txt` -/
def insightsFileName (ff : FormFactor) (ts : String) : String :=
  "lighthouse-ai-insights-" ++
    (match ff with | .desktop => "desktop" | .mobile => "mobile") ++ "-" ++ ts ++ ".txt"

/-- The `insightsFile` value after the insights block: set iff an api key
was supplied, at least one result exists, and the artifact write
succeeded.  The generated text — `generateAIInsights apiKey.isSome
env.call`, a placeholder on a failed call — is what gets written into
the artifact, but it never decides whether the field is set. -/
def insightsPhase (apiKey : Option String) (ff : FormFactor) (results : List AuditResult)
    (env : InsightsEnv) : Option String :=
  if apiKey.isSome ∧ results.length > 0 then
    if env.writeOk then some ("/reports/" ++ insightsFileName ff env.timestamp) else none
  else none

/-- The final update of `processAuditAsync`: terminal `completed` state. -/
def finalizeSession (fin : Session) (acc : List AuditResult) (ifile : Option String) :
    Session :=
  { fin with
      status := .completed
      results := acc
      currentUrl := none
      progress := fin.total
      insightsFile := ifile }

/-- The terminal state written by the task-level catch when something
throws before the loop (the only such site: constructing the service /
OpenAI client). -/
def fatalErrorSession (total : ℕ) (msg : String) : Session :=
  { initialSession total with status := .error, errorMsg := some msg }

/-- The pollable snapshots of one session, in order.  `fatal = some m`
models the only throw site outside the loop, which the task-level catch
turns into the terminal error state before any other snapshot is
pollable. -/
def processTrace (cfg : LighthouseConfig) (urls : List String)
    (outcomes : List StepOutcome) (fatal : Option String) (env : InsightsEnv) :
    List Session :=
  match fatal with
  | some m => [fatalErrorSession urls.length m]
  | none =>
    let r := runLoop 0 (initialSession urls.length) [] (urls.zip outcomes)
    r.1 ++ (if cfg.apiKey.isSome ∧ r.2.2.length > 0 then [r.2.1] else []) ++
      [finalizeSession r.2.1 r.2.2
        (insightsPhase cfg.apiKey (cfg.formFactor.getD .desktop) r.2.2 env)]

/-! ## The submit endpoint (`handleAuditRequest`) -/

/-- What the submit endpoint answers. -/
inductive SubmitResponse where
  /-- 501: serverless platform, Chrome unavailable -/
  | unsupported
  /-- 400 with the given error message -/
  | clientError (msg : String)
  /-- 200 `{success: true, sessionId}` -/
  | accepted (sessionId : String)
deriving DecidableEq, Repr

/-- `handleAuditRequest`: validation and session creation.  `isValidUrl`
stands for `new URL(url)` not throwing; `sessionId` for the value of
`generateSessionId()`.  Returns the response and the session stored into
the map (if any). -/
def handleAuditRequest (serverless : Bool) (urls : Option (List String))
    (config : Option LighthouseConfig) (isValidUrl : String → Bool)
    (sessionId : String) : SubmitResponse × Option Session :=
  if serverless then (.unsupported, none)
  else
    match urls with
    | none => (.clientError "URLs array is required", none)
    | some us =>
      if us.length = 0 then (.clientError "URLs array is required", none)
      else
        match config with
        | none => (.clientError "Configuration with formFactor is required", none)
        | some c =>
          match c.formFactor with
          | none => (.clientError "Configuration with formFactor is required", none)
          | some _ =>
            let validUrls := us.filter isValidUrl
            if validUrls.length = 0 then (.clientError "No valid URLs provided", none)
            else (.accepted sessionId, some (initialSession validUrls.length))


/-! ## Loop invariants -/

theorem progressStore_status (store : Session) (url : String) (i : ℕ) :
    (progressStore store url i).status = store.status := rfl

theorem progressStore_results (store : Session) (url : String) (i : ℕ) :
    (progressStore store url i).results = store.results := rfl

theorem progressStore_currentUrl (store : Session) (url : String) (i : ℕ) :
    (progressStore store url i).currentUrl = some url := rfl

theorem progressStore_progress (store : Session) (url : String) (i : ℕ) :
    (progressStore store url i).progress = i := rfl

theorem progressStore_total (store : Session) (url : String) (i : ℕ) :
    (progressStore store url i).total = store.total := rfl

theorem progressStore_errorMsg (store : Session) (url : String) (i : ℕ) :
    (progressStore store url i).errorMsg = store.errorMsg := rfl

theorem progressStore_insightsFile (store : Session) (url : String) (i : ℕ) :
    (progressStore store url i).insightsFile = store.insightsFile := rfl

theorem afterStepStore_status (store : Session) (url : String) (i : ℕ)
    (acc' : List AuditResult) (o : StepOutcome) :
    (afterStepStore store url i acc' o).status = store.status := by
  unfold afterStepStore
  split <;> rfl

theorem afterStepStore_total (store : Session) (url : String) (i : ℕ)
    (acc' : List AuditResult) (o : StepOutcome) :
    (afterStepStore store url i acc' o).total = store.total := by
  unfold afterStepStore
  split <;> rfl

theorem afterStepStore_errorMsg (store : Session) (url : String) (i : ℕ)
    (acc' : List AuditResult) (o : StepOutcome) :
    (afterStepStore store url i acc' o).errorMsg = store.errorMsg := by
  unfold afterStepStore
  split <;> rfl

theorem afterStepStore_insightsFile (store : Session) (url : String) (i : ℕ)
    (acc' : List AuditResult) (o : StepOutcome) :
    (afterStepStore store url i acc' o).insightsFile = store.insightsFile := by
  unfold afterStepStore
  split <;> rfl

theorem afterStepStore_progress (store : Session) (url : String) (i : ℕ)
    (acc' : List AuditResult) (o : StepOutcome) :
    (afterStepStore store url i acc' o).progress = i := by
  unfold afterStepStore
  split <;> rfl

theorem afterStepStore_results (store : Session) (url : String) (i : ℕ)
    (acc' : List AuditResult) (o : StepOutcome) :
    (afterStepStore store url i acc' o).results =
      if o.isReturned then acc' else store.results := by
  unfold afterStepStore
  split <;> simp_all [progressStore]

theorem runLoop_nil (i : ℕ) (store : Session) (acc : List AuditResult) :
    runLoop i store acc [] = ([], store, acc) := rfl

theorem runLoop_cons (i : ℕ) (store : Session) (acc : List AuditResult)
    (url : String) (o : StepOutcome) (rest : List (String × StepOutcome)) :
    runLoop i store acc ((url, o) :: rest) =
      (progressStore store url i ::
          (runLoop (i + 1) (afterStepStore store url i (acc ++ [stepResult url o]) o)
            (acc ++ [stepResult url o]) rest).1,
        (runLoop (i + 1) (afterStepStore store url i (acc ++ [stepResult url o]) o)
          (acc ++ [stepResult url o]) rest).2) := rfl

theorem runLoop_acc (steps : List (String × StepOutcome)) :
    ∀ (i : ℕ) (store : Session) (acc : List AuditResult),
      (runLoop i store acc steps).2.2 = acc ++ steps.map (fun p => stepResult p.1 p.2) := by
  induction steps with
  | nil =>
    intro i store acc
    simp [runLoop_nil]
  | cons p rest ih =>
    intro i store acc
    obtain ⟨url, o⟩ := p
    rw [runLoop_cons]
    simp only [ih]
    simp

theorem runLoop_fields (steps : List (String × StepOutcome)) :
    ∀ (i : ℕ) (store : Session) (acc : List AuditResult),
      (∀ s ∈ (runLoop i store acc steps).1,
          s.status = store.status ∧ s.total = store.total ∧
            s.errorMsg = store.errorMsg ∧ s.insightsFile = store.insightsFile) ∧
        ((runLoop i store acc steps).2.1.status = store.status ∧
          (runLoop i store acc steps).2.1.total = store.total ∧
          (runLoop i store acc steps).2.1.errorMsg = store.errorMsg ∧
          (runLoop i store acc steps).2.1.insightsFile = store.insightsFile) := by
  induction steps with
  | nil =>
    intro i store acc
    simp [runLoop_nil]
  | cons p rest ih =>
    intro i store acc
    obtain ⟨url, o⟩ := p
    rw [runLoop_cons]
    obtain ⟨ihsnap, ihfin⟩ :=
      ih (i + 1) (afterStepStore store url i (acc ++ [stepResult url o]) o)
        (acc ++ [stepResult url o])
    constructor
    · intro s hs
      rcases List.mem_cons.mp hs with rfl | hs
      · exact ⟨progressStore_status .., progressStore_total ..,
          progressStore_errorMsg .., progressStore_insightsFile ..⟩
      · obtain ⟨h1, h2, h3, h4⟩ := ihsnap s hs
        exact ⟨h1.trans (afterStepStore_status ..), h2.trans (afterStepStore_total ..),
          h3.trans (afterStepStore_errorMsg ..), h4.trans (afterStepStore_insightsFile ..)⟩
    · obtain ⟨h1, h2, h3, h4⟩ := ihfin
      exact ⟨h1.trans (afterStepStore_status ..), h2.trans (afterStepStore_total ..),
        h3.trans (afterStepStore_errorMsg ..), h4.trans (afterStepStore_insightsFile ..)⟩

theorem runLoop_snap_progress (steps : List (String × StepOutcome)) :
    ∀ (i : ℕ) (store : Session) (acc : List AuditResult),
      ∀ s ∈ (runLoop i store acc steps).1,
        i ≤ s.progress ∧ s.progress + 1 ≤ i + steps.length := by
  induction steps with
  | nil =>
    intro i store acc s hs
    simp [runLoop_nil] at hs
  | cons p rest ih =>
    intro i store acc s hs
    obtain ⟨url, o⟩ := p
    rw [runLoop_cons] at hs
    rcases List.mem_cons.mp hs with rfl | hs
    · rw [progressStore_progress]
      simp
    · obtain ⟨h1, h2⟩ := ih (i + 1)
        (afterStepStore store url i (acc ++ [stepResult url o]) o)
        (acc ++ [stepResult url o]) s hs
      constructor
      · omega
      · simpa [Nat.succ_eq_add_one] using by omega

theorem runLoop_final_progress_le (steps : List (String × StepOutcome)) :
    ∀ (i : ℕ) (store : Session) (acc : List AuditResult), store.progress ≤ i →
      (runLoop i store acc steps).2.1.progress ≤ i + steps.length := by
  induction steps with
  | nil =>
    intro i store acc h
    simpa [runLoop_nil] using h.trans (Nat.le_add_right i 0)
  | cons p rest ih =>
    intro i store acc h
    obtain ⟨url, o⟩ := p
    rw [runLoop_cons]
    have := ih (i + 1) (afterStepStore store url i (acc ++ [stepResult url o]) o)
      (acc ++ [stepResult url o]) (by rw [afterStepStore_progress]; omega)
    simpa [Nat.succ_eq_add_one] using by omega

theorem runLoop_final_progress_eq (steps : List (String × StepOutcome)) :
    ∀ (i : ℕ) (store : Session) (acc : List AuditResult), steps ≠ [] →
      (runLoop i store acc steps).2.1.progress + 1 = i + steps.length := by
  induction steps with
  | nil =>
    intro i store acc h
    exact absurd rfl h
  | cons p rest ih =>
    intro i store acc _
    obtain ⟨url, o⟩ := p
    rw [runLoop_cons]
    dsimp only
    rcases Decidable.em (rest = []) with hrest | hrest
    · subst hrest
      rw [runLoop_nil]
      dsimp only
      rw [afterStepStore_progress]
      simp
    · have hrec := ih (i + 1) (afterStepStore store url i (acc ++ [stepResult url o]) o)
        (acc ++ [stepResult url o]) hrest
      simp only [List.length_cons] at hrec ⊢
      omega

theorem runLoop_chain (steps : List (String × StepOutcome)) :
    ∀ (i : ℕ) (store : Session) (acc : List AuditResult), store.progress ≤ i →
      List.Chain' (fun a b => a.progress ≤ b.progress)
        (store :: (runLoop i store acc steps).1 ++ [(runLoop i store acc steps).2.1]) := by
  induction steps with
  | nil =>
    intro i store acc _
    simp [runLoop_nil]
  | cons p rest ih =>
    intro i store acc h
    obtain ⟨url, o⟩ := p
    rw [runLoop_cons]
    dsimp only
    have hrec := ih (i + 1) (afterStepStore store url i (acc ++ [stepResult url o]) o)
      (acc ++ [stepResult url o]) (by rw [afterStepStore_progress]; omega)
    simp only [List.cons_append] at hrec ⊢
    rw [List.chain'_cons'] at hrec
    obtain ⟨hhead, htail⟩ := hrec
    refine List.chain'_cons'.mpr ⟨?_, List.chain'_cons'.mpr ⟨?_, htail⟩⟩
    · intro y hy
      simp only [List.cons_append, List.head?_cons, Option.mem_def, Option.some.injEq] at hy
      subst hy
      rw [progressStore_progress]
      exact h
    · intro y hy
      have := hhead y hy
      rw [afterStepStore_progress] at this
      rw [progressStore_progress]
      omega

theorem runLoop_results_len (steps : List (String × StepOutcome)) :
    ∀ (i : ℕ) (store : Session) (acc : List AuditResult),
      store.results.length ≤ i → acc.length ≤ i →
      (∀ s ∈ (runLoop i store acc steps).1, s.results.length ≤ s.progress) ∧
        (runLoop i store acc steps).2.1.results.length ≤ i + steps.length := by
  induction steps with
  | nil =>
    intro i store acc hst _
    constructor
    · intro s hs
      simp [runLoop_nil] at hs
    · simpa [runLoop_nil] using hst.trans (Nat.le_add_right i 0)
  | cons p rest ih =>
    intro i store acc hst hacc
    obtain ⟨url, o⟩ := p
    rw [runLoop_cons]
    have hst' : (afterStepStore store url i (acc ++ [stepResult url o]) o).results.length
        ≤ i + 1 := by
      rw [afterStepStore_results]
      rcases o.isReturned with _ | _ <;> simp <;> omega
    obtain ⟨ihsnap, ihfin⟩ := ih (i + 1)
      (afterStepStore store url i (acc ++ [stepResult url o]) o)
      (acc ++ [stepResult url o]) hst' (by simp; omega)
    constructor
    · intro s hs
      rcases List.mem_cons.mp hs with rfl | hs
      · rw [progressStore_progress, progressStore_results]
        exact hst
      · exact ihsnap s hs
    · simpa [Nat.succ_eq_add_one] using by omega

/-! ## Which results can a poller see mid-run?

`processAuditAsync` writes the accumulated `results` into the store only
when `auditUrl`'s promise resolved; a snapshot's result list is always
the full per-URL prefix up to (and including) the most recent resolved
step. -/

/-- `rs` is a store-visible result list for the step list `steps`: the
mapped results of the first `m` steps, where either no step has been
written yet (`m = 0`) or step `m - 1` is one whose `auditUrl` promise
resolved (so its synchronous tail performed the store write). -/
def resultsWellFormed (steps : List (String × StepOutcome)) (rs : List AuditResult) : Prop :=
  ∃ m, m ≤ steps.length ∧ rs = (steps.take m).map (fun p => stepResult p.1 p.2) ∧
    (m = 0 ∨ ∃ p, steps[m - 1]? = some p ∧ p.2.isReturned = true)

theorem resultsWellFormed_nil (steps : List (String × StepOutcome)) :
    resultsWellFormed steps [] :=
  ⟨0, Nat.zero_le _, by simp, Or.inl rfl⟩

theorem resultsWellFormed_append (steps more : List (String × StepOutcome))
    (rs : List AuditResult) (h : resultsWellFormed steps rs) :
    resultsWellFormed (steps ++ more) rs := by
  obtain ⟨m, hm, hrs, hlast⟩ := h
  refine ⟨m, by simp; omega, ?_, ?_⟩
  · rw [List.take_append_of_le_length hm]
    exact hrs
  · rcases hlast with h0 | ⟨p, hp, hret⟩
    · exact Or.inl h0
    · refine Or.inr ⟨p, ?_, hret⟩
      have hlt : m - 1 < steps.length := (List.getElem?_eq_some.mp hp).1
      rw [List.getElem?_append, if_pos hlt]
      exact hp

theorem resultsWellFormed_snoc (steps : List (String × StepOutcome))
    (url : String) (o : StepOutcome) (hret : o.isReturned = true) :
    resultsWellFormed (steps ++ [(url, o)])
      ((steps ++ [(url, o)]).map (fun p => stepResult p.1 p.2)) := by
  refine ⟨steps.length + 1, by simp, by simp, Or.inr ⟨(url, o), ?_, hret⟩⟩
  have : steps.length + 1 - 1 = steps.length := by omega
  rw [this]
  rw [List.getElem?_append_right (le_refl _)]
  simp

theorem runLoop_wellFormed (rest : List (String × StepOutcome)) :
    ∀ (consumed : List (String × StepOutcome)) (i : ℕ) (store : Session),
      resultsWellFormed consumed store.results →
      (∀ s ∈ (runLoop i store (consumed.map fun p => stepResult p.1 p.2) rest).1,
          resultsWellFormed (consumed ++ rest) s.results) ∧
        resultsWellFormed (consumed ++ rest)
          (runLoop i store (consumed.map fun p => stepResult p.1 p.2) rest).2.1.results := by
  induction rest with
  | nil =>
    intro consumed i store hst
    constructor
    · intro s hs
      simp [runLoop_nil] at hs
    · simpa [runLoop_nil] using resultsWellFormed_append consumed [] store.results hst
  | cons p rest' ih =>
    intro consumed i store hst
    obtain ⟨url, o⟩ := p
    rw [runLoop_cons]
    dsimp only
    have hacc : (consumed.map fun p => stepResult p.1 p.2) ++ [stepResult url o] =
        ((consumed ++ [(url, o)]).map fun p => stepResult p.1 p.2) := by
      simp
    have hstore' : resultsWellFormed (consumed ++ [(url, o)])
        (afterStepStore store url i
          ((consumed.map fun p => stepResult p.1 p.2) ++ [stepResult url o]) o).results := by
      rw [afterStepStore_results]
      rcases hret : o.isReturned with _ | _
      · rw [if_neg (by simp [hret])]
        exact resultsWellFormed_append consumed [(url, o)] store.results hst
      · rw [if_pos rfl, hacc]
        exact resultsWellFormed_snoc consumed url o hret
    have hrec := ih (consumed ++ [(url, o)]) (i + 1)
      (afterStepStore store url i
        ((consumed.map fun p => stepResult p.1 p.2) ++ [stepResult url o]) o) hstore'
    rw [← hacc] at hrec
    obtain ⟨ihsnap, ihfin⟩ := hrec
    have hassoc : (consumed ++ [(url, o)]) ++ rest' = consumed ++ (url, o) :: rest' := by
      simp
    rw [hassoc] at ihsnap ihfin
    constructor
    · intro s hs
      rcases List.mem_cons.mp hs with rfl | hs
      · rw [progressStore_results]
        exact resultsWellFormed_append consumed ((url, o) :: rest') store.results hst
      · exact ihsnap s hs
    · exact ihfin

/-! ## Trace-level facts -/

theorem finalizeSession_status (fin : Session) (acc : List AuditResult)
    (ifile : Option String) : (finalizeSession fin acc ifile).status = .completed := rfl

theorem finalizeSession_results (fin : Session) (acc : List AuditResult)
    (ifile : Option String) : (finalizeSession fin acc ifile).results = acc := rfl

theorem finalizeSession_progress (fin : Session) (acc : List AuditResult)
    (ifile : Option String) : (finalizeSession fin acc ifile).progress = fin.total := rfl

theorem finalizeSession_total (fin : Session) (acc : List AuditResult)
    (ifile : Option String) : (finalizeSession fin acc ifile).total = fin.total := rfl

theorem finalizeSession_insightsFile (fin : Session) (acc : List AuditResult)
    (ifile : Option String) : (finalizeSession fin acc ifile).insightsFile = ifile := rfl

theorem processTrace_none (cfg : LighthouseConfig) (urls : List String)
    (outcomes : List StepOutcome) (env : InsightsEnv) :
    processTrace cfg urls outcomes none env =
      (runLoop 0 (initialSession urls.length) [] (urls.zip outcomes)).1 ++
        (if cfg.apiKey.isSome ∧
            (runLoop 0 (initialSession urls.length) [] (urls.zip outcomes)).2.2.length > 0
          then [(runLoop 0 (initialSession urls.length) [] (urls.zip outcomes)).2.1]
          else []) ++
        [finalizeSession (runLoop 0 (initialSession urls.length) [] (urls.zip outcomes)).2.1
          (runLoop 0 (initialSession urls.length) [] (urls.zip outcomes)).2.2
          (insightsPhase cfg.apiKey (cfg.formFactor.getD .desktop)
            (runLoop 0 (initialSession urls.length) [] (urls.zip outcomes)).2.2 env)] := rfl

theorem processTrace_some (cfg : LighthouseConfig) (urls : List String)
    (outcomes : List StepOutcome) (env : InsightsEnv) (m : String) :
    processTrace cfg urls outcomes (some m) env = [fatalErrorSession urls.length m] := rfl

/-- The last pollable state is the terminal one written by the final
update. -/
theorem processTrace_none_getLast (cfg : LighthouseConfig) (urls : List String)
    (outcomes : List StepOutcome) (env : InsightsEnv) :
    (processTrace cfg urls outcomes none env).getLast? =
      some (finalizeSession
        (runLoop 0 (initialSession urls.length) [] (urls.zip outcomes)).2.1
        (runLoop 0 (initialSession urls.length) [] (urls.zip outcomes)).2.2
        (insightsPhase cfg.apiKey (cfg.formFactor.getD .desktop)
          (runLoop 0 (initialSession urls.length) [] (urls.zip outcomes)).2.2 env)) := by
  rw [processTrace_none]
  exact List.getLast?_concat _

/-- Splitting membership in a fatal-free trace: a pollable state is a
loop snapshot, the loop-final state (shown during the insights awaits),
or the terminal state. -/
theorem processTrace_none_mem (cfg : LighthouseConfig) (urls : List String)
    (outcomes : List StepOutcome) (env : InsightsEnv) (s : Session)
    (hs : s ∈ processTrace cfg urls outcomes none env) :
    s ∈ (runLoop 0 (initialSession urls.length) [] (urls.zip outcomes)).1 ∨
      s = (runLoop 0 (initialSession urls.length) [] (urls.zip outcomes)).2.1 ∨
      s = finalizeSession
        (runLoop 0 (initialSession urls.length) [] (urls.zip outcomes)).2.1
        (runLoop 0 (initialSession urls.length) [] (urls.zip outcomes)).2.2
        (insightsPhase cfg.apiKey (cfg.formFactor.getD .desktop)
          (runLoop 0 (initialSession urls.length) [] (urls.zip outcomes)).2.2 env) := by
  rw [processTrace_none] at hs
  rcases List.mem_append.mp hs with hs' | hs'
  · rcases List.mem_append.mp hs' with h1 | h2
    · exact Or.inl h1
    · refine Or.inr (Or.inl ?_)
      rcases Decidable.em (cfg.apiKey.isSome ∧
          (runLoop 0 (initialSession urls.length) [] (urls.zip outcomes)).2.2.length > 0)
        with hc | hc
      · rw [if_pos hc] at h2
        simpa using h2
      · rw [if_neg hc] at h2
        simp at h2
  · refine Or.inr (Or.inr ?_)
    simpa using hs'

/-- Reassembling the monotone-progress chain over the full pollable
trace from the loop-level chain. -/
theorem chain_progress_assemble (A : List Session) (x fin final : Session)
    (h : List.Chain' (fun a b => a.progress ≤ b.progress) ((x :: A) ++ [fin]))
    (hle : fin.progress ≤ final.progress) (B : List Session)
    (hB : B = [] ∨ B = [fin]) :
    List.Chain' (fun a b => a.progress ≤ b.progress) ((A ++ B) ++ [final]) := by
  rw [List.cons_append] at h
  have h1 : List.Chain' (fun a b => a.progress ≤ b.progress) (A ++ [fin]) :=
    (List.chain'_cons'.mp h).2
  rw [List.chain'_append] at h1
  obtain ⟨hA, _, hlink⟩ := h1
  rcases hB with rfl | rfl
  · rw [List.append_nil, List.chain'_append]
    refine ⟨hA, List.chain'_singleton _, ?_⟩
    intro a ha y hy
    simp only [List.head?_cons, Option.mem_def, Option.some.injEq] at hy
    subst hy
    exact le_trans (hlink a ha fin rfl) hle
  · rw [List.append_assoc, List.chain'_append]
    refine ⟨hA, ?_, ?_⟩
    · simp only [List.singleton_append]
      exact List.chain'_pair.mpr hle
    · intro a ha y hy
      simp only [List.singleton_append, List.head?_cons, Option.mem_def,
        Option.some.injEq] at hy
      subst hy
      exact hlink a ha fin rfl

theorem stepResult_url (u : String) (o : StepOutcome) : (stepResult u o).url = u := by
  cases o <;> rfl

theorem stepResult_isFailure (u : String) (o : StepOutcome) :
    (stepResult u o).isFailure = o.producesFailure := by
  cases o <;> rfl

/-! ## Concrete data used by counterexamples and witnesses -/

/-- A concrete configuration with a summarizer credential. -/
def cfgWithKey : LighthouseConfig where
  apiKey := some "sk-test"
  bypassToken := none
  formFactor := some .desktop

/-- A concrete configuration without a summarizer credential. -/
def cfgNoKey : LighthouseConfig where
  apiKey := none
  bypassToken := none
  formFactor := some .desktop

/-- A concrete insights environment where the chat call succeeds. -/
def envOk : InsightsEnv where
  call := .ok (some "All pages are fast.")
  writeOk := true
  timestamp := "2026-02-03T04-05-06-789Z"

/-- A concrete insights environment where the chat call fails. -/
def envCallFails : InsightsEnv where
  call := .failed "ECONNRESET"
  writeOk := true
  timestamp := "2026-02-03T04-05-06-789Z"

/-- A concrete score set. -/
def sampleScores : Scores where
  performance := 90
  accessibility := 95
  bestPractices := 100
  seo := 80
  pwa := none

/-! ## Claim C1 — the session sweeper -/

/-- Supporting fact: a session id carrying any nonempty random suffix
parses to at least 36 times its creation time, so the sweep keeps it at
every wall-clock instant up to 36 times the creation time — far beyond
any realistic deployment. -/
theorem sweepDeletes_false_of_suffix (t : ℕ) (rand : List ℕ) (hr : rand ≠ []) (now : ℕ)
    (hnow : (now : ℤ) ≤ 36 * t) :
    sweepDeletes (sessionIdDigits t rand) now = false := by
  unfold sweepDeletes
  rw [parseIntBase36_sessionId]
  simp only [decide_eq_false_iff_not, not_lt]
  have hk : 1 ≤ rand.length := by
    rcases rand with _ | ⟨d, ds⟩
    · exact absurd rfl hr
    · simp
  have h36 : (36 : ℤ) ≤ (36 : ℤ) ^ rand.length := by
    calc (36 : ℤ) = 36 ^ 1 := by norm_num
    _ ≤ 36 ^ rand.length := pow_le_pow_right₀ (by norm_num) hk
  have ht : (0 : ℤ) ≤ (t : ℤ) := Int.natCast_nonneg t
  have hmul : (t : ℤ) * 36 ≤ (t : ℤ) * 36 ^ rand.length :=
    mul_le_mul_of_nonneg_left h36 ht
  have hparse : (0 : ℤ) ≤ (parseIntBase36 rand : ℤ) := Int.natCast_nonneg _
  have hret : (0 : ℤ) ≤ (retentionMs : ℤ) := Int.natCast_nonneg _
  push_cast
  push_cast at hmul
  linarith

/-- Claim C1: evaluating the sweep at the failing input.  A session
created at `t = 1760000000000` ms whose id carries the one-digit random
suffix `a` (value 10) is *not* deleted by a sweep running 25 hours
later, although the claim requires it to be gone at any time at least
24 hours after creation: `parseInt(id, 36)` reads the whole id, giving
`36·t + 10`, which dwarfs the cutoff. -/
theorem claim_C1_sweeper_eval :
    sweepDeletes (sessionIdDigits 1760000000000 [10])
      (1760000000000 + 25 * 60 * 60 * 1000) = false ∧
    parseIntBase36 (sessionIdDigits 1760000000000 [10]) = 36 * 1760000000000 + 10 := by
  constructor
  · apply sweepDeletes_false_of_suffix
    · simp
    · norm_num
  · rw [parseIntBase36_sessionId]
    norm_num [parseIntBase36]

/-! ## Claim C5 — score rounding -/

/-- Claim C5: for every fractional category score `s ∈ [0,1]` the
reported integer equals round-half-up of `s × 100`; in particular
`0.994 ↦ 99`, `0.005 ↦ 1` (not 0), and `0 ↦ 0`. -/
theorem claim_C5_rounding :
    (∀ s : ℚ, 0 ≤ s → s ≤ 1 →
        calcCategoryScore (some s) = roundHalfUpSpec (s * 100)) ∧
      calcCategoryScore (some (497 / 500)) = 99 ∧
      calcCategoryScore (some (1 / 200)) = 1 ∧
      calcCategoryScore (some 0) = 0 := by
  have hgen : ∀ s : ℚ, calcCategoryScore (some s) = roundHalfUpSpec (s * 100) := by
    intro s
    unfold calcCategoryScore
    rw [jsMathRound_eq_roundHalfUpSpec]
    rfl
  refine ⟨fun s _ _ => hgen s, ?_, ?_, ?_⟩
  · show jsMathRound (497 / 500 * 100) = 99
    unfold jsMathRound
    apply Int.floor_eq_iff.mpr
    constructor <;> norm_num
  · show jsMathRound (1 / 200 * 100) = 1
    unfold jsMathRound
    apply Int.floor_eq_iff.mpr
    constructor <;> norm_num
  · show jsMathRound (0 * 100) = 0
    unfold jsMathRound
    apply Int.floor_eq_iff.mpr
    constructor <;> norm_num

/-- Witness for claim C5 at the tie-breaking input `0.005`. -/
theorem claim_C5_witness :
    (0 : ℚ) ≤ 1 / 200 ∧ (1 : ℚ) / 200 ≤ 1 ∧
      calcCategoryScore (some (1 / 200)) = roundHalfUpSpec (1 / 200 * 100) :=
  ⟨by norm_num, by norm_num,
    claim_C5_rounding.1 (1 / 200) (by norm_num) (by norm_num)⟩

/-! ## Claim C6 — browser release -/

/-- A concrete environment in which everything works except that the
`browser.disconnect()` call in the `finally` block rejects. -/
def envDisconnectFails : BrowserEnv where
  launchOk := true
  connectOk := true
  bodyResult := none
  bodyErrorMsg := "Lighthouse returned no result"
  launchErrorMsg := ""
  connectErrorMsg := ""
  disconnectOk := false
  killOk := true

/-- A concrete environment in which the audit body fails but both
cleanup calls succeed. -/
def envCleanupOk : BrowserEnv where
  launchOk := true
  connectOk := true
  bodyResult := none
  bodyErrorMsg := "Request timeout - the audit took too long to complete."
  launchErrorMsg := ""
  connectErrorMsg := ""
  disconnectOk := true
  killOk := true

/-- Claim C6 counterexample: when the `disconnect` call in the `finally`
block itself rejects, the sequential `finally` skips `chrome.kill()` and
the invocation ends with a launched, never-killed Chrome process —
a code path that leaves the browser process alive. -/
theorem claim_C6_counterexample :
    (auditUrlExec envDisconnectFails "https://good.example" "a.json" "a.html").chromeLaunched
        = true ∧
      (auditUrlExec envDisconnectFails "https://good.example" "a.json" "a.html").chromeKilled
        = false ∧
      (auditUrlExec envDisconnectFails "https://good.example" "a.json"
          "a.html").browserDisconnected = false :=
  ⟨rfl, rfl, rfl⟩

/-- Claim C6 (amended): on every path on which the two cleanup calls
themselves succeed — whatever launch, connect or the audit body did —
a launched Chrome process is killed and a connected Puppeteer browser is
disconnected before the invocation settles.  If `disconnect` itself
rejects, the kill is skipped (see the counterexample). -/
theorem claim_C6_release (env : BrowserEnv) (url jsonPath htmlPath : String)
    (hdisc : env.disconnectOk = true) (hkill : env.killOk = true) :
    ((auditUrlExec env url jsonPath htmlPath).chromeLaunched = true →
        (auditUrlExec env url jsonPath htmlPath).chromeKilled = true) ∧
      ((auditUrlExec env url jsonPath htmlPath).browserConnected = true →
        (auditUrlExec env url jsonPath htmlPath).browserDisconnected = true) := by
  by_cases hl : env.launchOk <;> by_cases hc : env.connectOk <;>
    simp [auditUrlExec, hl, hc, hdisc, hkill]

/-- Witness for claim C6: a failing audit body with healthy cleanup
still kills Chrome. -/
theorem claim_C6_witness :
    (auditUrlExec envCleanupOk "https://x.example" "a.json" "a.html").chromeLaunched = true ∧
      (auditUrlExec envCleanupOk "https://x.example" "a.json" "a.html").chromeKilled = true :=
  ⟨rfl, (claim_C6_release envCleanupOk "https://x.example" "a.json" "a.html" rfl rfl).1 rfl⟩

/-! ## Claim C7 — opportunity ordering -/

/-- Projecting an audit to the reported opportunity entry. -/
def toOpportunity (a : LhAudit) : Opportunity := ⟨a.title, a.displayValue, a.numericValue⟩

theorem filter_key_map_toOpportunity (l : List LhAudit) (q : ℚ) :
    (l.map toOpportunity).filter (fun a => a.numericValue.getD 0 = q) =
      (l.filter (fun a => impactKey a = q)).map toOpportunity := by
  induction l with
  | nil => rfl
  | cons x xs ih =>
    by_cases hx : impactKey x = q
    · have hx' : x.numericValue.getD 0 = q := hx
      simp [List.filter_cons, toOpportunity, hx, hx', ih]
    · have hx' : ¬ x.numericValue.getD 0 = q := hx
      simp [List.filter_cons, toOpportunity, hx, hx', ih]

/-- Claim C7: the opportunities list of a success result is sorted by
descending numeric impact (absent impacts count as 0, exactly as the
comparator's `|| 0` does), opportunities of equal impact keep the
engine-reported relative order (the filter to any one impact value is
unchanged by the sort), and the list is a permutation of the filtered
engine audits — no entry invented or dropped. -/
theorem claim_C7_opportunities (audits : List LhAudit) :
    List.Pairwise
        (fun a b : Opportunity => b.numericValue.getD 0 ≤ a.numericValue.getD 0)
        (extractOpportunities audits) ∧
      (∀ q : ℚ,
        (extractOpportunities audits).filter (fun a => a.numericValue.getD 0 = q) =
          ((audits.filter (fun a => a.isOpportunity)).filter
            (fun a => impactKey a = q)).map toOpportunity) ∧
      (extractOpportunities audits).Perm
        ((audits.filter (fun a => a.isOpportunity)).map toOpportunity) := by
  refine ⟨?_, ?_, ?_⟩
  · unfold extractOpportunities
    rw [List.pairwise_map]
    exact sortImpactDesc_sorted (audits.filter fun a => a.isOpportunity)
  · intro q
    unfold extractOpportunities
    have h1 := filter_key_map_toOpportunity
      (sortImpactDesc (audits.filter fun a => a.isOpportunity)) q
    rw [show (fun a : LhAudit => (⟨a.title, a.displayValue, a.numericValue⟩ : Opportunity))
        = toOpportunity from rfl]
    rw [h1, sortImpactDesc_filter_key]
  · unfold extractOpportunities
    exact (sortImpactDesc_perm (audits.filter fun a => a.isOpportunity)).map _

/-- Sample audits: two opportunities tie at impact 500 and must keep
their engine order; a non-opportunity audit is dropped. -/
def auditA : LhAudit where
  title := "Eliminate render-blocking resources"
  displayValue := some "0.5 s"
  numericValue := some 500
  isOpportunity := true

def auditB : LhAudit where
  title := "Properly size images"
  displayValue := none
  numericValue := some 1200
  isOpportunity := true

def auditC : LhAudit where
  title := "Reduce unused JavaScript"
  displayValue := none
  numericValue := some 500
  isOpportunity := true

def auditD : LhAudit where
  title := "First Contentful Paint"
  displayValue := none
  numericValue := some 99999
  isOpportunity := false

/-- Witness for claim C7 at a concrete list with an impact tie: the
highest impact comes first, the tie keeps engine order, the
non-opportunity audit disappears. -/
theorem claim_C7_witness :
    extractOpportunities [auditA, auditB, auditD, auditC] =
        [⟨"Properly size images", none, some 1200⟩,
          ⟨"Eliminate render-blocking resources", some "0.5 s", some 500⟩,
          ⟨"Reduce unused JavaScript", none, some 500⟩] ∧
      List.Pairwise
        (fun a b : Opportunity => b.numericValue.getD 0 ≤ a.numericValue.getD 0)
        (extractOpportunities [auditA, auditB, auditD, auditC]) :=
  ⟨by decide, (claim_C7_opportunities [auditA, auditB, auditD, auditC]).1⟩

/-! ## Claim C8 — submit validation -/

/-- Claim C8: in a capable (non-serverless) environment the request is
rejected with a client error and no session is created **iff** the urls
list is empty or missing, the formFactor (or whole config) is missing,
or no submitted string validates; otherwise a session is created whose
`total` is the number of URLs that passed validation (invalid ones are
silently dropped), with fresh `processing` state. -/
theorem claim_C8_validation (urls : Option (List String))
    (config : Option LighthouseConfig) (isValidUrl : String → Bool)
    (sessionId : String) :
    (((handleAuditRequest false urls config isValidUrl sessionId).2 = none ∧
        ∃ m, (handleAuditRequest false urls config isValidUrl sessionId).1 =
          .clientError m) ↔
      (urls.getD [] = [] ∨ config.bind LighthouseConfig.formFactor = none ∨
        (urls.getD []).filter isValidUrl = [])) ∧
    (∀ sess, (handleAuditRequest false urls config isValidUrl sessionId).2 = some sess →
      (handleAuditRequest false urls config isValidUrl sessionId).1 =
          .accepted sessionId ∧
        sess = initialSession ((urls.getD []).filter isValidUrl).length) := by
  rcases urls with _ | us
  · simp [handleAuditRequest]
  · rcases Decidable.em (us.length = 0) with hus | hus
    · have : us = [] := List.length_eq_zero.mp hus
      subst this
      simp [handleAuditRequest]
    · rcases config with _ | c
      · simp [handleAuditRequest, hus]
      · rcases hff : c.formFactor with _ | ff
        · simp [handleAuditRequest, hus, hff, List.length_eq_zero.not.mp hus]
        · rcases Decidable.em ((us.filter isValidUrl).length = 0) with hval | hval
          · have hvnil : us.filter isValidUrl = [] := List.length_eq_zero.mp hval
            simp [handleAuditRequest, hus, hff, hval, hvnil,
              List.length_eq_zero.not.mp hus]
          · have hvne : ¬ us.filter isValidUrl = [] := List.length_eq_zero.not.mp hval
            simp [handleAuditRequest, hus, hff, hval, hvne,
              List.length_eq_zero.not.mp hus]

/-- Witness for claim C8: one of two submitted strings validates; the
session is created with `total = 1` and the invalid string dropped. -/
theorem claim_C8_witness :
    (handleAuditRequest false (some ["https://a.example", "nope"]) (some cfgNoKey)
        (fun s => s ≠ "nope") "sid").1 = .accepted "sid" ∧
      (handleAuditRequest false (some ["https://a.example", "nope"]) (some cfgNoKey)
        (fun s => s ≠ "nope") "sid").2 = some (initialSession 1) :=
  ⟨((claim_C8_validation (some ["https://a.example", "nope"]) (some cfgNoKey)
      (fun s => s ≠ "nope") "sid").2 (initialSession 1) (by decide)).1, by decide⟩

/-! ## Claim C9 — single-shot terminal status -/

/-- Claim C9: every pollable state before the last one has status
`processing`; the last pollable state is terminal — `completed` on the
normal path, `error` (with the message recorded) exactly when the task
failed before the loop — so the status changes at most once,
`processing → {completed, error}`, and no write follows the terminal
one. -/
theorem claim_C9_status (cfg : LighthouseConfig) (urls : List String)
    (outcomes : List StepOutcome) (fatal : Option String) (env : InsightsEnv) :
    (∀ s ∈ (processTrace cfg urls outcomes fatal env).dropLast,
        s.status = .processing) ∧
      (∃ last, (processTrace cfg urls outcomes fatal env).getLast? = some last ∧
        ((fatal = none ∧ last.status = .completed) ∨
          (∃ m, fatal = some m ∧ last.status = .error ∧ last.errorMsg = some m))) := by
  rcases fatal with _ | m
  · constructor
    · intro s hs
      rw [processTrace_none, List.dropLast_concat] at hs
      rcases List.mem_append.mp hs with h1 | h2
      · exact ((runLoop_fields (urls.zip outcomes) 0 (initialSession urls.length) []).1
          s h1).1
      · rcases Decidable.em (cfg.apiKey.isSome ∧
            (runLoop 0 (initialSession urls.length) [] (urls.zip outcomes)).2.2.length > 0)
          with hc | hc
        · rw [if_pos hc] at h2
          have hs2 : s =
              (runLoop 0 (initialSession urls.length) [] (urls.zip outcomes)).2.1 := by
            simpa using h2
          subst hs2
          exact (runLoop_fields (urls.zip outcomes) 0 (initialSession urls.length) []).2.1
        · rw [if_neg hc] at h2
          simp at h2
    · exact ⟨_, processTrace_none_getLast cfg urls outcomes env,
        Or.inl ⟨rfl, finalizeSession_status _ _ _⟩⟩
  · constructor
    · intro s hs
      rw [processTrace_some] at hs
      simp at hs
    · refine ⟨fatalErrorSession urls.length m, ?_, Or.inr ⟨m, rfl, rfl, rfl⟩⟩
      rw [processTrace_some]
      rfl

/-- Witness for claim C9 at a concrete one-URL run whose audit fails:
the only non-terminal pollable states are `processing` and the last
state is `completed`. -/
theorem claim_C9_witness :
    ∃ last,
      (processTrace cfgNoKey ["https://a.example"]
          [.returnedFailure "Connection refused - unable to connect to the target website."]
          none envOk).getLast? = some last ∧
        (((none : Option String) = none ∧ last.status = .completed) ∨
          (∃ m, (none : Option String) = some m ∧ last.status = .error ∧
            last.errorMsg = some m)) :=
  (claim_C9_status cfgNoKey ["https://a.example"]
    [.returnedFailure "Connection refused - unable to connect to the target website."]
    none envOk).2

/-! ## Claim C2 — progress/results invariants -/

/-- Claim C2 counterexample: during the insights block's awaits (one URL
audited successfully, summarizer credential present) the store shows
`results.length = 1` while `progress` is still `0` — an observable state
with `results.length ≠ progress`, refuting
"`results.length == progress` at every observation". -/
theorem claim_C2_counterexample :
    ((processTrace cfgWithKey ["https://good.example"]
          [.success sampleScores [] "/reports/a.json" "/reports/a.html"]
          none envOk)[1]?).map (fun s => (s.status, s.results.length, s.progress)) =
      some (.processing, 1, 0) := by
  decide

/-- Claim C2 (amended): over the pollable states of a session, `progress`
is monotonically non-decreasing and never exceeds `total`, and
`results.length` never exceeds `progress + 1` (it can lag behind
`progress` after a rejected `auditUrl` promise, and exceed it by exactly
one during the insights block); at the terminal observation
`results.length = progress`, and on the normal path `progress = total`.
The unqualified `results.length == progress` of the claim fails (see the
counterexample). -/
theorem claim_C2_progress (cfg : LighthouseConfig) (urls : List String)
    (outcomes : List StepOutcome) (fatal : Option String) (env : InsightsEnv)
    (hlen : outcomes.length = urls.length) :
    List.Chain' (fun a b => a.progress ≤ b.progress)
        (processTrace cfg urls outcomes fatal env) ∧
      (∀ s ∈ processTrace cfg urls outcomes fatal env,
        s.progress ≤ s.total ∧ s.results.length ≤ s.progress + 1) ∧
      (∀ last, (processTrace cfg urls outcomes fatal env).getLast? = some last →
        last.results.length = last.progress ∧ (fatal = none → last.progress = last.total)) := by
  rcases fatal with _ | m
  · have hsteps : (urls.zip outcomes).length = urls.length := by
      rw [List.length_zip, hlen, min_self]
    have hinitp : (initialSession urls.length).progress ≤ 0 := le_refl 0
    have hinitr : (initialSession urls.length).results.length ≤ 0 := le_refl 0
    have hfields := runLoop_fields (urls.zip outcomes) 0 (initialSession urls.length) []
    have hsnap := runLoop_snap_progress (urls.zip outcomes) 0 (initialSession urls.length) []
    have hfinle := runLoop_final_progress_le (urls.zip outcomes) 0
      (initialSession urls.length) [] hinitp
    have hrlen := runLoop_results_len (urls.zip outcomes) 0 (initialSession urls.length) []
      hinitr (le_refl 0)
    have hacc := runLoop_acc (urls.zip outcomes) 0 (initialSession urls.length) []
    have hacclen :
        (runLoop 0 (initialSession urls.length) [] (urls.zip outcomes)).2.2.length =
          urls.length := by
      rw [hacc]
      simp [hsteps]
    have hfintotal :
        (runLoop 0 (initialSession urls.length) [] (urls.zip outcomes)).2.1.total =
          urls.length := hfields.2.2.1
    refine ⟨?_, ?_, ?_⟩
    · rw [processTrace_none]
      apply chain_progress_assemble _ (initialSession urls.length)
      · exact runLoop_chain (urls.zip outcomes) 0 (initialSession urls.length) [] hinitp
      · rw [finalizeSession_progress, hfintotal]
        calc (runLoop 0 (initialSession urls.length) [] (urls.zip outcomes)).2.1.progress
            ≤ 0 + (urls.zip outcomes).length := hfinle
          _ = urls.length := by rw [hsteps]; omega
      · rcases Decidable.em (cfg.apiKey.isSome ∧
            (runLoop 0 (initialSession urls.length) [] (urls.zip outcomes)).2.2.length > 0)
          with hc | hc
        · rw [if_pos hc]
          exact Or.inr rfl
        · rw [if_neg hc]
          exact Or.inl rfl
    · intro s hs
      rcases processTrace_none_mem cfg urls outcomes env s hs with h1 | h2 | h3
      · have htot := (hfields.1 s h1).2.1
        have hpr := hsnap s h1
        have hlen1 := hrlen.1 s h1
        constructor
        · rw [htot]
          simp [initialSession]
          omega
        · omega
      · subst h2
        constructor
        · rw [hfintotal]
          calc (runLoop 0 (initialSession urls.length) [] (urls.zip outcomes)).2.1.progress
              ≤ 0 + (urls.zip outcomes).length := hfinle
            _ = urls.length := by rw [hsteps]; omega
        · rcases Decidable.em (urls.zip outcomes = []) with hnil | hnil
          · rw [hnil, runLoop_nil]
            simp [initialSession]
          · have hlen2 := hrlen.2
            have hpe := runLoop_final_progress_eq (urls.zip outcomes) 0
              (initialSession urls.length) [] hnil
            omega
      · subst h3
        rw [finalizeSession_progress, finalizeSession_total, finalizeSession_results]
        refine ⟨le_refl _, ?_⟩
        rw [hacclen, hfintotal]
        omega
    · intro last hlast
      rw [processTrace_none_getLast] at hlast
      injection hlast with hlast
      subst hlast
      rw [finalizeSession_progress, finalizeSession_total, finalizeSession_results]
      rw [hacclen, hfintotal]
      exact ⟨rfl, fun _ => rfl⟩
  · refine ⟨?_, ?_, ?_⟩
    · rw [processTrace_some]
      exact List.chain'_singleton _
    · intro s hs
      rw [processTrace_some] at hs
      have : s = fatalErrorSession urls.length m := by simpa using hs
      subst this
      exact ⟨Nat.zero_le _, Nat.zero_le _⟩
    · intro last hlast
      rw [processTrace_some] at hlast
      have h' : fatalErrorSession urls.length m = last := by simpa using hlast
      subst h'
      exact ⟨rfl, fun h => absurd h (by simp)⟩

/-- Witness for claim C2 at a concrete two-URL run with one rejected
`auditUrl` promise. -/
theorem claim_C2_witness :
    List.Chain' (fun a b => a.progress ≤ b.progress)
        (processTrace cfgWithKey ["https://a.example", "https://b.example"]
          [.threw "disconnect failed",
            .success sampleScores [] "/reports/b.json" "/reports/b.html"] none envOk) ∧
      ∀ s ∈ processTrace cfgWithKey ["https://a.example", "https://b.example"]
          [.threw "disconnect failed",
            .success sampleScores [] "/reports/b.json" "/reports/b.html"] none envOk,
        s.progress ≤ s.total ∧ s.results.length ≤ s.progress + 1 :=
  ⟨(claim_C2_progress cfgWithKey ["https://a.example", "https://b.example"]
      [.threw "disconnect failed",
        .success sampleScores [] "/reports/b.json" "/reports/b.html"] none envOk rfl).1,
    (claim_C2_progress cfgWithKey ["https://a.example", "https://b.example"]
      [.threw "disconnect failed",
        .success sampleScores [] "/reports/b.json" "/reports/b.html"] none envOk rfl).2.1⟩

/-! ## Claim C3 — failed summarizer call -/

/-- Claim C3 counterexample: with a summarizer credential present and
the external text-generation call failing, the session still completes,
but `insightsFile` **is** set — `generateAIInsights` swallows the
rejection and returns the placeholder text, which is then written as
the artifact — contradicting "its insightsFile field is absent". -/
theorem claim_C3_counterexample :
    ((processTrace cfgWithKey ["https://good.example"]
          [.success sampleScores [] "/reports/a.json" "/reports/a.html"]
          none envCallFails).getLast?).map (fun s => (s.status, s.insightsFile)) =
      some (.completed,
        some "/reports/lighthouse-ai-insights-desktop-2026-02-03T04-05-06-789Z.txt") := by
  decide

/-- Claim C3 (amended): a failed text-generation call is absorbed —
`generateAIInsights` resolves with the placeholder string
`"Error generating AI insights"` instead of rethrowing — and the session
still reaches `completed`; but the insights artifact **is** recorded
(`insightsFile` set to the artifact path) whenever the artifact write
succeeds, and it is absent only when that write itself throws. -/
theorem claim_C3_insights (cfg : LighthouseConfig) (urls : List String)
    (outcomes : List StepOutcome) (env : InsightsEnv) (key e : String)
    (hkey : cfg.apiKey = some key) (hcall : env.call = .failed e)
    (hne : urls ≠ []) (hlen : outcomes.length = urls.length) :
    generateAIInsights cfg.apiKey.isSome env.call = "Error generating AI insights" ∧
      ∀ last, (processTrace cfg urls outcomes none env).getLast? = some last →
        last.status = .completed ∧
          last.insightsFile = (if env.writeOk = true
            then some ("/reports/" ++
              insightsFileName (cfg.formFactor.getD .desktop) env.timestamp)
            else none) := by
  constructor
  · rw [hkey, hcall]
    rfl
  · intro last hlast
    rw [processTrace_none_getLast] at hlast
    injection hlast with hlast
    subst hlast
    refine ⟨finalizeSession_status _ _ _, ?_⟩
    rw [finalizeSession_insightsFile]
    unfold insightsPhase
    have hacclen :
        (runLoop 0 (initialSession urls.length) [] (urls.zip outcomes)).2.2.length =
          urls.length := by
      rw [runLoop_acc]
      simp [List.length_zip, hlen]
    rw [if_pos ?hc]
    case hc =>
      constructor
      · rw [hkey]
        rfl
      · rw [hacclen]
        exact Nat.pos_of_ne_zero fun h => hne (List.length_eq_zero.mp h)

/-- Witness for claim C3 at a concrete run where the chat call fails. -/
theorem claim_C3_witness :
    generateAIInsights cfgWithKey.apiKey.isSome envCallFails.call =
      "Error generating AI insights" :=
  (claim_C3_insights cfgWithKey ["https://good.example"]
    [.success sampleScores [] "/reports/a.json" "/reports/a.html"] envCallFails
    "sk-test" "ECONNRESET" rfl rfl (by simp) rfl).1

/-! ## Claim C4 — completed batch shape -/

/-- Claim C4: on the normal path the completed session holds exactly one
result per post-validation URL, in submission order (the result roster
is the per-URL step results, so the `url` projection returns the
submitted list), with exactly as many failure variants as failing
steps, the rest success variants, and every failure variant carrying
only `url` and `error`. -/
theorem claim_C4_results (cfg : LighthouseConfig) (urls : List String)
    (outcomes : List StepOutcome) (env : InsightsEnv)
    (hlen : outcomes.length = urls.length) :
    ∀ last, (processTrace cfg urls outcomes none env).getLast? = some last →
      last.status = .completed ∧
        last.results = (urls.zip outcomes).map (fun p => stepResult p.1 p.2) ∧
        last.results.length = urls.length ∧
        last.results.map AuditResult.url = urls ∧
        last.results.countP AuditResult.isFailure =
          outcomes.countP StepOutcome.producesFailure ∧
        last.results.countP (fun r => !r.isFailure) =
          outcomes.countP (fun o => !o.producesFailure) ∧
        (∀ r ∈ last.results, r.isFailure = true → ∃ u msg, r = .failure u msg) := by
  intro last hlast
  rw [processTrace_none_getLast] at hlast
  injection hlast with hlast
  subst hlast
  have hres : (finalizeSession
      (runLoop 0 (initialSession urls.length) [] (urls.zip outcomes)).2.1
      (runLoop 0 (initialSession urls.length) [] (urls.zip outcomes)).2.2
      (insightsPhase cfg.apiKey (cfg.formFactor.getD .desktop)
        (runLoop 0 (initialSession urls.length) [] (urls.zip outcomes)).2.2 env)).results =
      (urls.zip outcomes).map (fun p => stepResult p.1 p.2) := by
    rw [finalizeSession_results, runLoop_acc]
    simp
  refine ⟨finalizeSession_status _ _ _, hres, ?_, ?_, ?_, ?_, ?_⟩
  · rw [hres]
    simp [List.length_zip, hlen]
  · rw [hres, List.map_map]
    have hcong : (urls.zip outcomes).map (AuditResult.url ∘ fun p => stepResult p.1 p.2) =
        (urls.zip outcomes).map Prod.fst := by
      apply List.map_congr_left
      intro p _
      exact stepResult_url p.1 p.2
    rw [hcong]
    exact List.map_fst_zip urls outcomes (le_of_eq hlen.symm)
  · rw [hres, List.countP_map]
    have hcong : List.countP ((fun r => r.isFailure) ∘ fun p => stepResult p.1 p.2)
        (urls.zip outcomes) =
        List.countP (fun p => p.2.producesFailure) (urls.zip outcomes) := by
      apply List.countP_congr
      intro p _
      simp [stepResult_isFailure]
    rw [hcong, show (fun p : String × StepOutcome => p.2.producesFailure) =
      (StepOutcome.producesFailure ∘ Prod.snd) from rfl, ← List.countP_map]
    rw [List.map_snd_zip urls outcomes (le_of_eq hlen)]
  · rw [hres, List.countP_map]
    have hcong : List.countP ((fun r => !r.isFailure) ∘ fun p => stepResult p.1 p.2)
        (urls.zip outcomes) =
        List.countP (fun p => !p.2.producesFailure) (urls.zip outcomes) := by
      apply List.countP_congr
      intro p _
      simp [stepResult_isFailure]
    rw [hcong, show (fun p : String × StepOutcome => !p.2.producesFailure) =
      ((fun o => !StepOutcome.producesFailure o) ∘ Prod.snd) from rfl, ← List.countP_map]
    rw [List.map_snd_zip urls outcomes (le_of_eq hlen)]
  · intro r _ hr
    cases r with
    | success u sc op j h =>
      simp [AuditResult.isFailure] at hr
    | failure u msg => exact ⟨u, msg, rfl⟩

/-- Witness for claim C4 at a two-URL run with one per-URL failure. -/
theorem claim_C4_witness :
    ∃ last,
      (processTrace cfgNoKey ["https://a.example", "https://b.example"]
          [.success sampleScores [] "/reports/a.json" "/reports/a.html",
            .returnedFailure "Request timeout - the audit took too long to complete."]
          none envOk).getLast? = some last ∧
        last.results.length = 2 ∧ last.results.countP AuditResult.isFailure = 1 := by
  obtain ⟨-, -, hlen2, -, hK, -, -⟩ :=
    claim_C4_results cfgNoKey ["https://a.example", "https://b.example"]
      [.success sampleScores [] "/reports/a.json" "/reports/a.html",
        .returnedFailure "Request timeout - the audit took too long to complete."]
      envOk rfl _ (processTrace_none_getLast _ _ _ _)
  refine ⟨_, processTrace_none_getLast _ _ _ _, ?_, ?_⟩
  · rw [hlen2]
    rfl
  · rw [hK]
    rfl

/-! ## Claim C10 — visibility of failure results mid-run -/

/-- Claim C10 counterexample: the normal per-URL failure path does not
throw out of `auditUrl` — it *returns* the failure variant — so the
loop's success branch runs and writes the accumulated list (failure
included) to the store in that very step.  Concretely: with URL 0
failing and URL 1 still being audited, the pollable state already shows
the failure result while the session is `processing`, no later URL has
succeeded, and no terminal status has been reached. -/
theorem claim_C10_counterexample :
    ((processTrace cfgNoKey ["https://a.example", "https://b.example"]
          [.returnedFailure "Connection refused - unable to connect to the target website.",
            .success sampleScores [] "/reports/b.json" "/reports/b.html"]
          none envOk)[1]?).map (fun s => (s.status, s.currentUrl, s.results)) =
      some (.processing, some "https://b.example",
        [.failure "https://a.example"
          "Connection refused - unable to connect to the target website."]) := by
  decide

/-- The pollable state used by the C10 witness. -/
def snapshotAfterThrow : Session where
  status := .processing
  results := []
  currentUrl := some "https://b.example"
  progress := 1
  total := 2
  errorMsg := none
  insightsFile := none

/-- Claim C10 (amended): every `processing` pollable state shows exactly
the per-URL results of the first `m` steps for some `m`, where `m = 0`
or step `m - 1` is one whose `auditUrl` promise resolved (success or
returned failure).  Hence only failures from a *rejected* `auditUrl`
promise (a cleanup failure) stay confined to the local accumulator —
they become visible only once a later step's promise resolves, or at the
terminal state; failures *returned* by `auditUrl` are written to the
store in the same step (see the counterexample). -/
theorem claim_C10_visibility (cfg : LighthouseConfig) (urls : List String)
    (outcomes : List StepOutcome) (fatal : Option String) (env : InsightsEnv) :
    ∀ s ∈ processTrace cfg urls outcomes fatal env, s.status = .processing →
      resultsWellFormed (urls.zip outcomes) s.results := by
  intro s hs hproc
  rcases fatal with _ | m
  · have hwf := runLoop_wellFormed (urls.zip outcomes) [] 0 (initialSession urls.length)
      (resultsWellFormed_nil [])
    simp only [List.map_nil, List.nil_append] at hwf
    rcases processTrace_none_mem cfg urls outcomes env s hs with h1 | h2 | h3
    · exact hwf.1 s h1
    · subst h2
      exact hwf.2
    · subst h3
      rw [finalizeSession_status] at hproc
      exact SessionStatus.noConfusion hproc
  · rw [processTrace_some] at hs
    have h' : s = fatalErrorSession urls.length m := by simpa using hs
    subst h'
    exact SessionStatus.noConfusion hproc

/-- Witness for claim C10: with URL 0's `auditUrl` promise rejected
(cleanup failure) and URL 1 in flight, the pollable state still shows an
empty result list — the thrown failure stayed in the local accumulator —
and indeed satisfies the prefix shape with `m = 0`. -/
theorem claim_C10_witness :
    resultsWellFormed
      (["https://a.example", "https://b.example"].zip
        ([.threw "disconnect failed",
          .success sampleScores [] "/reports/b.json" "/reports/b.html"] :
          List StepOutcome))
      snapshotAfterThrow.results :=
  claim_C10_visibility cfgNoKey ["https://a.example", "https://b.example"]
    [.threw "disconnect failed",
      .success sampleScores [] "/reports/b.json" "/reports/b.html"] none envOk
    snapshotAfterThrow (by decide) rfl
